import Mathlib

/-!
Verification of the CrossRetail BigQuery analytical views
(`backend/scripts/create_bigquery_views.sql`) against the system
specification of the Price Intelligence Aggregation Engine.

The views are shallowly embedded as pure Lean functions over lists of
rows.  Timestamps are integers (seconds); prices are rationals (the SQL
engine's numeric column); nullable columns are `Option`.  BigQuery's `/`
operator raises an error on a zero divisor, so the arbitrage view's
margin computation is embedded as an `Option`-valued division and the
whole view returns `none` when any group's computation errors.

SQL constructs whose result order among ties is engine-chosen
(`ROW_NUMBER ... ORDER BY` with equal keys, `ARRAY_AGG(... ORDER BY ...
LIMIT 1)` with equal sort keys, `ORDER BY` on equal keys, the row order
produced by `GROUP BY`) are determinized here in the stable,
input-order-preserving way: groups are enumerated in first-occurrence
order, sorting is stable insertion sort, and tied aggregation picks the
first row in input order (for `ROW_NUMBER ... ORDER BY scraped_at DESC`
the spec's sequence-id rule is used: the latest-ingested row wins a
timestamp tie).

Columns of the `products` table that no view condition or claim touches
(`url`, `description`, `rating`, `review_count`, `availability`,
`image_urls`, `model`, `category`, `sku`, `gcs_path`) are pass-through
in the SQL and are omitted from the row type.
-/

/- The Batteries definitions of rational arithmetic are `irreducible`,
which blocks `decide` on concrete view evaluations; restore default
reducibility so the kernel can evaluate them. -/
set_option allowUnsafeReducibility true

attribute [semireducible] Rat.sub Rat.mul Rat.div Rat.inv Rat.add Rat.neg

/-- A row of `retail_intelligence.products`: one scraped price
observation. -/
structure ProductRow where
  product_id : String
  site : String
  title : Option String
  price : Option ℚ
  currency : Option String
  brand : Option String
  scraped_at : Int
  deriving Repr, DecidableEq

/-! ### Generic fold-based MIN/MAX aggregates (SQL `MIN`/`MAX` over a
group, which ignore NULLs: callers pass the list of non-null values). -/

/-- SQL `MIN` over a list of non-null values: `none` on the empty list. -/
def foldMin {α : Type} [LinearOrder α] : List α → Option α
  | [] => none
  | x :: xs => some (xs.foldl min x)

/-- SQL `MAX` over a list of non-null values: `none` on the empty list. -/
def foldMax {α : Type} [LinearOrder α] : List α → Option α
  | [] => none
  | x :: xs => some (xs.foldl max x)

theorem foldl_min_le {α : Type} [LinearOrder α] (xs : List α) (a : α) :
    xs.foldl min a ≤ a ∧ ∀ x ∈ xs, xs.foldl min a ≤ x := by
  induction xs generalizing a with
  | nil => simp
  | cons y ys ih =>
    obtain ⟨h1, h2⟩ := ih (min a y)
    refine ⟨le_trans h1 (min_le_left _ _), ?_⟩
    intro x hx
    rcases List.mem_cons.mp hx with rfl | hx
    · exact le_trans h1 (min_le_right _ _)
    · exact h2 x hx

theorem foldl_min_mem {α : Type} [LinearOrder α] (xs : List α) (a : α) :
    xs.foldl min a = a ∨ xs.foldl min a ∈ xs := by
  induction xs generalizing a with
  | nil => simp
  | cons y ys ih =>
    rcases ih (min a y) with h | h
    · rcases min_choice a y with hm | hm
      · left; rw [List.foldl_cons, h, hm]
      · right; rw [List.foldl_cons, h, hm]; exact List.mem_cons_self _ _
    · right; exact List.mem_cons_of_mem _ h

theorem foldl_max_le {α : Type} [LinearOrder α] (xs : List α) (a : α) :
    a ≤ xs.foldl max a ∧ ∀ x ∈ xs, x ≤ xs.foldl max a := by
  induction xs generalizing a with
  | nil => simp
  | cons y ys ih =>
    obtain ⟨h1, h2⟩ := ih (max a y)
    refine ⟨le_trans (le_max_left _ _) h1, ?_⟩
    intro x hx
    rcases List.mem_cons.mp hx with rfl | hx
    · exact le_trans (le_max_right _ _) h1
    · exact h2 x hx

theorem foldl_max_mem {α : Type} [LinearOrder α] (xs : List α) (a : α) :
    xs.foldl max a = a ∨ xs.foldl max a ∈ xs := by
  induction xs generalizing a with
  | nil => simp
  | cons y ys ih =>
    rcases ih (max a y) with h | h
    · rcases max_choice a y with hm | hm
      · left; rw [List.foldl_cons, h, hm]
      · right; rw [List.foldl_cons, h, hm]; exact List.mem_cons_self _ _
    · right; exact List.mem_cons_of_mem _ h

theorem foldMin_mem {α : Type} [LinearOrder α] {l : List α} {m : α}
    (h : foldMin l = some m) : m ∈ l := by
  cases l with
  | nil => simp [foldMin] at h
  | cons x xs =>
    simp only [foldMin, Option.some.injEq] at h
    rcases foldl_min_mem xs x with h' | h'
    · rw [← h, h']; exact List.mem_cons_self _ _
    · rw [← h]; exact List.mem_cons_of_mem _ h'

theorem foldMin_le {α : Type} [LinearOrder α] {l : List α} {m : α}
    (h : foldMin l = some m) : ∀ x ∈ l, m ≤ x := by
  cases l with
  | nil => simp [foldMin] at h
  | cons x xs =>
    simp only [foldMin, Option.some.injEq] at h
    intro y hy
    rcases List.mem_cons.mp hy with rfl | hy
    · rw [← h]; exact (foldl_min_le xs y).1
    · rw [← h]; exact (foldl_min_le xs x).2 y hy

theorem foldMax_mem {α : Type} [LinearOrder α] {l : List α} {m : α}
    (h : foldMax l = some m) : m ∈ l := by
  cases l with
  | nil => simp [foldMax] at h
  | cons x xs =>
    simp only [foldMax, Option.some.injEq] at h
    rcases foldl_max_mem xs x with h' | h'
    · rw [← h, h']; exact List.mem_cons_self _ _
    · rw [← h]; exact List.mem_cons_of_mem _ h'

theorem foldMax_ge {α : Type} [LinearOrder α] {l : List α} {m : α}
    (h : foldMax l = some m) : ∀ x ∈ l, x ≤ m := by
  cases l with
  | nil => simp [foldMax] at h
  | cons x xs =>
    simp only [foldMax, Option.some.injEq] at h
    intro y hy
    rcases List.mem_cons.mp hy with rfl | hy
    · rw [← h]; exact (foldl_max_le xs y).1
    · rw [← h]; exact (foldl_max_le xs x).2 y hy

/-! ### The `latest_prices` view

```sql
SELECT ..., ROW_NUMBER() OVER (PARTITION BY product_id, site
                               ORDER BY scraped_at DESC) as rn
FROM products
WHERE scraped_at >= TIMESTAMP_SUB(CURRENT_TIMESTAMP(), INTERVAL 30 DAY)
QUALIFY rn = 1
```
-/

/-- The 30-day recency window `W_latest`, in seconds. -/
def wLatest : Int := 30 * 86400

/-- The view's `WHERE` filter: the observation is at most 30 days old. -/
def inLatestWindow (now : Int) (r : ProductRow) : Bool :=
  now - wLatest ≤ r.scraped_at

/-- The partition key of the `latest_prices` window function. -/
def latestKey (r : ProductRow) : String × String :=
  (r.product_id, r.site)

/-- The `rn = 1` row of one partition: the row with maximal `scraped_at`.
A timestamp tie is resolved in favour of the later-ingested row (the
spec's greatest-sequence-id rule; the SQL leaves the tie to the engine). -/
def pickLatest : List ProductRow → Option ProductRow
  | [] => none
  | r :: rs =>
    match pickLatest rs with
    | none => some r
    | some b => if b.scraped_at < r.scraped_at then some r else some b

/-- The `latest_prices` view: one row per `(product_id, site)` pair seen
in the 30-day window, the most recently scraped one. -/
def latest_prices (now : Int) (rows : List ProductRow) : List ProductRow :=
  let inw := rows.filter (inLatestWindow now)
  ((inw.map latestKey).dedup).filterMap fun k =>
    pickLatest (inw.filter fun r => latestKey r = k)

theorem pickLatest_eq_none {l : List ProductRow}
    (h : pickLatest l = none) : l = [] := by
  cases l with
  | nil => rfl
  | cons x xs =>
    simp only [pickLatest] at h
    cases hx : pickLatest xs with
    | none => simp [hx] at h
    | some b => rw [hx] at h; dsimp only at h; split at h <;> cases h

theorem pickLatest_mem {l : List ProductRow} {r : ProductRow}
    (h : pickLatest l = some r) : r ∈ l := by
  induction l with
  | nil => simp [pickLatest] at h
  | cons x xs ih =>
    simp only [pickLatest] at h
    cases hx : pickLatest xs with
    | none => rw [hx] at h; dsimp only at h; cases h; exact List.mem_cons_self _ _
    | some b =>
      rw [hx] at h; dsimp only at h
      by_cases hc : b.scraped_at < x.scraped_at
      · rw [if_pos hc] at h; cases h; exact List.mem_cons_self _ _
      · rw [if_neg hc] at h; cases h; exact List.mem_cons_of_mem _ (ih hx)

theorem pickLatest_ge {l : List ProductRow} {r : ProductRow}
    (h : pickLatest l = some r) : ∀ o ∈ l, o.scraped_at ≤ r.scraped_at := by
  induction l generalizing r with
  | nil => simp [pickLatest] at h
  | cons x xs ih =>
    simp only [pickLatest] at h
    intro o ho
    cases hx : pickLatest xs with
    | none =>
      rw [hx] at h; dsimp only at h; cases h
      rcases List.mem_cons.mp ho with rfl | ho
      · exact le_refl _
      · rw [pickLatest_eq_none hx] at ho; simp at ho
    | some b =>
      rw [hx] at h; dsimp only at h
      by_cases hc : b.scraped_at < x.scraped_at
      · rw [if_pos hc] at h; cases h
        rcases List.mem_cons.mp ho with rfl | ho
        · exact le_refl _
        · exact le_trans (ih hx o ho) (le_of_lt hc)
      · rw [if_neg hc] at h; cases h
        rcases List.mem_cons.mp ho with rfl | ho
        · exact not_lt.mp hc
        · exact ih hx o ho

/-- C1: every row of `latest_prices` lies inside the 30-day window, and
its `scraped_at` is maximal among the in-window observations of its
`(product_id, site)` pair. -/
theorem latest_price_max_in_window (now : Int) (rows : List ProductRow)
    (r : ProductRow) (h : r ∈ latest_prices now rows) :
    now - wLatest ≤ r.scraped_at ∧
      ∀ o ∈ rows, o.product_id = r.product_id → o.site = r.site →
        now - wLatest ≤ o.scraped_at → o.scraped_at ≤ r.scraped_at := by
  simp only [latest_prices, List.mem_filterMap] at h
  obtain ⟨k, hk, hpick⟩ := h
  have hrmem := pickLatest_mem hpick
  have hrfil := List.mem_filter.mp hrmem
  have hrin := List.mem_filter.mp hrfil.1
  have hrkey : latestKey r = k := of_decide_eq_true hrfil.2
  have hrwin : now - wLatest ≤ r.scraped_at := of_decide_eq_true hrin.2
  refine ⟨hrwin, ?_⟩
  intro o ho hpid hsite hwin
  have hokey : latestKey o = k := by
    rw [← hrkey]; simp [latestKey, hpid, hsite]
  have homem : o ∈ (rows.filter (inLatestWindow now)).filter
      fun x => latestKey x = k := by
    refine List.mem_filter.mpr ⟨List.mem_filter.mpr ⟨ho, ?_⟩, ?_⟩
    · exact decide_eq_true hwin
    · exact decide_eq_true hokey
  exact pickLatest_ge hpick o homem

/-- Concrete input for the C1 witness. -/
def c1rows : List ProductRow :=
  [⟨"p1", "amazon", some "Widget", some 10, some "USD", none, 100⟩,
   ⟨"p1", "amazon", some "Widget", some 12, some "USD", none, 50⟩]

/-- Witness for C1 at a concrete input: the newer of two amazon
observations of `p1` is resolved, lies in-window, and dominates both. -/
theorem latest_price_max_in_window_witness :
    (⟨"p1", "amazon", some "Widget", some 10, some "USD", none, 100⟩ : ProductRow)
        ∈ latest_prices 200 c1rows ∧
      (200 - wLatest ≤ (100 : Int) ∧
        ∀ o ∈ c1rows, o.product_id = "p1" → o.site = "amazon" →
          200 - wLatest ≤ o.scraped_at → o.scraped_at ≤ 100) :=
  ⟨by decide,
   latest_price_max_in_window 200 c1rows
     ⟨"p1", "amazon", some "Widget", some 10, some "USD", none, 100⟩ (by decide)⟩

/-! ### The `arbitrage_opportunities` view

```sql
WITH latest AS (SELECT * FROM latest_prices),
price_comparison AS (
  SELECT product_id, title, MIN(price) as min_price, MAX(price) as max_price,
         MAX(price) - MIN(price) as price_diff,
         (MAX(price) - MIN(price)) / MIN(price) * 100 as profit_margin_pct,
         COUNT(DISTINCT site) as retailer_count,
         ARRAY_AGG(site ORDER BY price LIMIT 1)[OFFSET(0)] as cheapest_retailer,
         ARRAY_AGG(site ORDER BY price DESC LIMIT 1)[OFFSET(0)] as expensive_retailer
  FROM latest WHERE price IS NOT NULL GROUP BY product_id, title
  HAVING profit_margin_pct >= 5 AND price_diff >= 1.0)
SELECT * FROM price_comparison ORDER BY profit_margin_pct DESC
```

The `HAVING` thresholds are the fixed literals `5` and `1.0` in the SQL;
the embedding takes them as parameters (modelled from the spec: the
backend's `GetArbitrageOpportunities(min_margin_pct, min_price_diff)`
operation supplies them, with defaults 5.0 and 1.0) and the concrete
view `arbitrage_view` instantiates the SQL's literals.
-/

/-- A `latest` row surviving `WHERE price IS NOT NULL`, with its price
made non-optional. -/
structure PricedRow where
  product_id : String
  title : Option String
  site : String
  price : ℚ
  deriving Repr, DecidableEq

/-- The `WHERE price IS NOT NULL` filter over the `latest` CTE. -/
def pricedRows (rows : List ProductRow) : List PricedRow :=
  rows.filterMap fun r =>
    r.price.map fun p => ⟨r.product_id, r.title, r.site, p⟩

/-- The `GROUP BY product_id, title` key. -/
def compKey (r : PricedRow) : String × Option String :=
  (r.product_id, r.title)

/-- The rows of one `GROUP BY product_id, title` group. -/
def groupOf (k : String × Option String) (pr : List PricedRow) :
    List PricedRow :=
  pr.filter fun r => compKey r = k

/-- `MIN(price)` over a group (groups are nonempty, so the 0 default is
never exercised by the views). -/
def minPriceOf (g : List PricedRow) : ℚ :=
  (foldMin (g.map PricedRow.price)).getD 0

/-- `MAX(price)` over a group. -/
def maxPriceOf (g : List PricedRow) : ℚ :=
  (foldMax (g.map PricedRow.price)).getD 0

/-- BigQuery division: the `/` operator raises a division-by-zero error
on a zero divisor, embedded as `none`. -/
def bqDiv (a b : ℚ) : Option ℚ :=
  if b = 0 then none else some (a / b)

/-- One row of the `price_comparison` CTE. -/
structure CompRow where
  product_id : String
  title : Option String
  min_price : ℚ
  max_price : ℚ
  price_diff : ℚ
  profit_margin_pct : ℚ
  retailer_count : Nat
  cheapest_retailer : String
  expensive_retailer : String
  deriving Repr, DecidableEq

/-- The aggregates of one `(product_id, title)` group.  `none` when the
margin computation divides by zero (`MIN(price) = 0`), which aborts the
whole query.  `ARRAY_AGG(site ORDER BY price [DESC] LIMIT 1)` is
embedded as the first row in input order attaining the min (resp. max)
price: the SQL leaves the choice among price ties to the engine. -/
def compRowOf (k : String × Option String) (g : List PricedRow) :
    Option CompRow :=
  match bqDiv (maxPriceOf g - minPriceOf g) (minPriceOf g),
      g.find? (fun r => r.price = minPriceOf g),
      g.find? (fun r => r.price = maxPriceOf g) with
  | some q, some cmin, some cmax =>
    some ⟨k.1, k.2, minPriceOf g, maxPriceOf g, maxPriceOf g - minPriceOf g,
      q * 100, ((g.map PricedRow.site).dedup).length, cmin.site, cmax.site⟩
  | _, _, _ => none

/-- The `price_comparison` rows for a list of group keys, in key order;
`none` as soon as any group's computation errors. -/
def priceComparisonAux (pr : List PricedRow) :
    List (String × Option String) → Option (List CompRow)
  | [] => some []
  | k :: ks =>
    match compRowOf k (groupOf k pr), priceComparisonAux pr ks with
    | some c, some cs => some (c :: cs)
    | _, _ => none

/-- The `price_comparison` CTE before its `HAVING` clause, groups in
first-occurrence order. -/
def price_comparison (rows : List ProductRow) : Option (List CompRow) :=
  let pr := pricedRows rows
  priceComparisonAux pr ((pr.map compKey).dedup)

/-- The `HAVING profit_margin_pct >= m AND price_diff >= d` clause. -/
def passesThresholds (minMargin minDiff : ℚ) (c : CompRow) : Bool :=
  decide (minMargin ≤ c.profit_margin_pct ∧ minDiff ≤ c.price_diff)

/-- `ORDER BY profit_margin_pct DESC` as a relation. -/
def marginGe (a b : CompRow) : Prop :=
  b.profit_margin_pct ≤ a.profit_margin_pct

instance : DecidableRel marginGe :=
  fun _ _ => inferInstanceAs (Decidable (_ ≤ _))

instance : IsTotal CompRow marginGe :=
  ⟨fun a b => le_total b.profit_margin_pct a.profit_margin_pct⟩

instance : IsTrans CompRow marginGe :=
  ⟨fun _ _ _ hab hbc => le_trans hbc hab⟩

/-- The arbitrage view with the thresholds as parameters. -/
def arbitrage_opportunities (minMargin minDiff : ℚ)
    (rows : List ProductRow) : Option (List CompRow) :=
  (price_comparison rows).map fun cs =>
    List.insertionSort marginGe (cs.filter (passesThresholds minMargin minDiff))

/-- The SQL view itself, with its hardcoded thresholds 5 and 1.0. -/
def arbitrage_view (rows : List ProductRow) : Option (List CompRow) :=
  arbitrage_opportunities 5 1 rows

/-- Concrete input for C2: product `p1` is offered at price 0 by amazon
and price 10 by walmart (same title), both in the latest window. -/
def c2rows : List ProductRow :=
  [⟨"p1", "amazon", some "Widget", some 0, some "USD", none, 100⟩,
   ⟨"p1", "walmart", some "Widget", some 10, some "USD", none, 100⟩]

/-- C2: on an input whose minimum non-null price for a product is 0, the
view's margin expression `(MAX(price) - MIN(price)) / MIN(price)`
divides by zero and the whole query errors (`none`) — the product is
not excluded as the spec requires. -/
theorem arbitrage_divides_by_zero_on_zero_min_price :
    arbitrage_view c2rows = none ∧
      some (0 : ℚ) ∈ c2rows.map ProductRow.price := by
  decide

theorem arbitrage_eq_some {minMargin minDiff : ℚ} {rows : List ProductRow}
    {out : List CompRow}
    (h : arbitrage_opportunities minMargin minDiff rows = some out) :
    ∃ cs, price_comparison rows = some cs ∧
      out = List.insertionSort marginGe
        (cs.filter (passesThresholds minMargin minDiff)) := by
  simp only [arbitrage_opportunities, Option.map_eq_some'] at h
  obtain ⟨cs, hcs, hout⟩ := h
  exact ⟨cs, hcs, hout.symm⟩

/-- C3: every opportunity returned by the arbitrage view satisfies both
threshold conditions at once: its margin reaches `minMargin` AND its
price spread reaches `minDiff`. -/
theorem arbitrage_thresholds_conjunction (minMargin minDiff : ℚ)
    (rows : List ProductRow) (out : List CompRow) (o : CompRow)
    (h : arbitrage_opportunities minMargin minDiff rows = some out)
    (ho : o ∈ out) :
    minMargin ≤ o.profit_margin_pct ∧ minDiff ≤ o.price_diff := by
  obtain ⟨cs, _, rfl⟩ := arbitrage_eq_some h
  have := List.mem_filter.mp ((List.mem_insertionSort marginGe).mp ho)
  exact of_decide_eq_true this.2

/-- Concrete input for the C3 witness: the spec's example scenario
(amazon 100, walmart 80 for `P1`, kohls 120 for another product). -/
def c3rows : List ProductRow :=
  [⟨"P1", "amazon", some "Gadget", some 100, some "USD", none, 100⟩,
   ⟨"P1", "walmart", some "Gadget", some 80, some "USD", none, 100⟩,
   ⟨"P2", "kohls", some "Other", some 120, some "USD", none, 200⟩]

/-- The single opportunity the spec's example scenario expects. -/
def c3opp : CompRow :=
  ⟨"P1", some "Gadget", 80, 100, 20, 25, 2, "walmart", "amazon"⟩

/-- Witness for C3: at thresholds (10, 5) the example input yields
exactly the expected `P1` opportunity, and it meets both thresholds. -/
theorem arbitrage_thresholds_conjunction_witness :
    arbitrage_opportunities 10 5 c3rows = some [c3opp] ∧
      c3opp ∈ [c3opp] ∧
      (10 ≤ c3opp.profit_margin_pct ∧ 5 ≤ c3opp.price_diff) :=
  ⟨by decide, by decide,
   arbitrage_thresholds_conjunction 10 5 c3rows [c3opp] c3opp
     (by decide) (by decide)⟩

/-- C4: the arbitrage aggregation groups by the pair
`(product_id, title)`: any two rows of the same group agree on both the
product id and the title, so two latest rows of one product with
different titles are never aggregated into one opportunity. -/
theorem arbitrage_groups_by_product_and_title
    (rows : List ProductRow) (k : String × Option String)
    (r1 r2 : PricedRow)
    (h1 : r1 ∈ groupOf k (pricedRows rows))
    (h2 : r2 ∈ groupOf k (pricedRows rows)) :
    r1.product_id = r2.product_id ∧ r1.title = r2.title := by
  have e1 : compKey r1 = k := of_decide_eq_true (List.mem_filter.mp h1).2
  have e2 : compKey r2 = k := of_decide_eq_true (List.mem_filter.mp h2).2
  have e := e1.trans e2.symm
  simp only [compKey, Prod.mk.injEq] at e
  exact e

/-- Concrete input for the C4 witness: one product listed under two
different titles at two retailers. -/
def c4rows : List ProductRow :=
  [⟨"p1", "amazon", some "Widget A", some 10, some "USD", none, 100⟩,
   ⟨"p1", "walmart", some "Widget A", some 30, some "USD", none, 100⟩,
   ⟨"p1", "kohls", some "Widget B", some 90, some "USD", none, 100⟩]

/-- Witness for C4: the two `Widget A` rows of `p1` share a group and
indeed agree on product id and title. -/
theorem arbitrage_groups_by_product_and_title_witness :
    (⟨"p1", some "Widget A", "amazon", 10⟩ : PricedRow)
        ∈ groupOf ("p1", some "Widget A") (pricedRows c4rows) ∧
      (⟨"p1", some "Widget A", "walmart", 30⟩ : PricedRow)
        ∈ groupOf ("p1", some "Widget A") (pricedRows c4rows) ∧
      ((⟨"p1", some "Widget A", "amazon", 10⟩ : PricedRow).product_id =
          (⟨"p1", some "Widget A", "walmart", 30⟩ : PricedRow).product_id ∧
        (⟨"p1", some "Widget A", "amazon", 10⟩ : PricedRow).title =
          (⟨"p1", some "Widget A", "walmart", 30⟩ : PricedRow).title) :=
  ⟨by decide, by decide,
   arbitrage_groups_by_product_and_title c4rows ("p1", some "Widget A")
     ⟨"p1", some "Widget A", "amazon", 10⟩
     ⟨"p1", some "Widget A", "walmart", 30⟩ (by decide) (by decide)⟩

/-! ### Result ordering (C5) -/

/-- The result ordering the specification claims (stated from the
spec's words, for comparison with the view): margin descending, ties by
price spread descending, then product id ascending. -/
def specClaimedRank (a b : CompRow) : Prop :=
  b.profit_margin_pct < a.profit_margin_pct ∨
    (a.profit_margin_pct = b.profit_margin_pct ∧
      (b.price_diff < a.price_diff ∨
        (a.price_diff = b.price_diff ∧ a.product_id ≤ b.product_id)))

instance : DecidableRel specClaimedRank :=
  fun a b => decidable_of_iff
    (b.profit_margin_pct < a.profit_margin_pct ∨
      (a.profit_margin_pct = b.profit_margin_pct ∧
        (b.price_diff < a.price_diff ∨
          (a.price_diff = b.price_diff ∧ a.product_id ≤ b.product_id))))
    Iff.rfl

/-- C5 (amended): the view's output is sorted by `profit_margin_pct`
descending; the SQL's `ORDER BY` has no tie-break columns. -/
theorem arbitrage_sorted_by_margin (minMargin minDiff : ℚ)
    (rows : List ProductRow) (out : List CompRow)
    (h : arbitrage_opportunities minMargin minDiff rows = some out) :
    out.Sorted marginGe := by
  obtain ⟨cs, _, rfl⟩ := arbitrage_eq_some h
  exact List.sorted_insertionSort marginGe _

/-- Concrete input for C5: two products with the same 100% margin but
different price spreads; the smaller-spread product comes first in the
input. -/
def c5rows : List ProductRow :=
  [⟨"b", "amazon", some "T", some 5, some "USD", none, 100⟩,
   ⟨"b", "walmart", some "T", some 10, some "USD", none, 100⟩,
   ⟨"a", "amazon", some "U", some 10, some "USD", none, 100⟩,
   ⟨"a", "walmart", some "U", some 20, some "USD", none, 100⟩]

/-- The comparison row of product `b` on `c5rows`. -/
def c5rowB : CompRow := ⟨"b", some "T", 5, 10, 5, 100, 2, "amazon", "walmart"⟩

/-- The comparison row of product `a` on `c5rows`. -/
def c5rowA : CompRow := ⟨"a", some "U", 10, 20, 10, 100, 2, "amazon", "walmart"⟩

/-- C5 counterexample: on `c5rows` the view emits the two equal-margin
products in input order, with the smaller `price_diff` first — not in
the claimed margin/diff/product-id lexicographic order. -/
theorem c5_counterexample :
    arbitrage_view c5rows = some [c5rowB, c5rowA] ∧
      ¬ ([c5rowB, c5rowA].Pairwise specClaimedRank) := by
  constructor
  · decide
  · intro hp
    have := List.rel_of_pairwise_cons hp (List.mem_singleton.mpr rfl)
    revert this
    decide

/-- Witness for the amended C5 on the same input. -/
theorem arbitrage_sorted_by_margin_witness :
    arbitrage_view c5rows = some [c5rowB, c5rowA] ∧
      ([c5rowB, c5rowA] : List CompRow).Sorted marginGe :=
  ⟨by decide,
   arbitrage_sorted_by_margin 5 1 c5rows [c5rowB, c5rowA] (by decide)⟩

/-! ### Cheapest/most-expensive retailer resolution (C6) -/

theorem compRowOf_eq_some {k : String × Option String} {g : List PricedRow}
    {o : CompRow} (h : compRowOf k g = some o) :
    o.product_id = k.1 ∧ o.title = k.2 ∧
      o.min_price = minPriceOf g ∧ o.max_price = maxPriceOf g ∧
      o.price_diff = maxPriceOf g - minPriceOf g ∧
      (∃ r ∈ g, r.site = o.cheapest_retailer ∧ r.price = minPriceOf g) ∧
      (∃ r ∈ g, r.site = o.expensive_retailer ∧ r.price = maxPriceOf g) ∧
      minPriceOf g ≠ 0 ∧
      o.profit_margin_pct = (maxPriceOf g - minPriceOf g) / minPriceOf g * 100 := by
  rcases hq : bqDiv (maxPriceOf g - minPriceOf g) (minPriceOf g) with _ | q <;>
    rcases hmin : g.find? (fun r => r.price = minPriceOf g) with _ | cmin <;>
      rcases hmax : g.find? (fun r => r.price = maxPriceOf g) with _ | cmax <;>
        simp only [compRowOf, hq, hmin, hmax] at h <;> cases h
  have hq' := hq
  simp only [bqDiv, ite_eq_iff] at hq'
  rcases hq' with ⟨_, hval⟩ | ⟨hne, hval⟩
  · cases hval
  · cases hval
    refine ⟨rfl, rfl, rfl, rfl, rfl, ?_, ?_, hne, rfl⟩
    · have hp := List.find?_some hmin
      simp only [decide_eq_true_eq] at hp
      exact ⟨cmin, List.mem_of_find?_eq_some hmin, rfl, hp⟩
    · have hp := List.find?_some hmax
      simp only [decide_eq_true_eq] at hp
      exact ⟨cmax, List.mem_of_find?_eq_some hmax, rfl, hp⟩

theorem priceComparisonAux_mem {pr : List PricedRow}
    {ks : List (String × Option String)} {cs : List CompRow} {o : CompRow}
    (h : priceComparisonAux pr ks = some cs) (ho : o ∈ cs) :
    ∃ k ∈ ks, compRowOf k (groupOf k pr) = some o := by
  induction ks generalizing cs with
  | nil =>
    simp only [priceComparisonAux, Option.some.injEq] at h
    subst h
    simp at ho
  | cons k ks ih =>
    rcases hc : compRowOf k (groupOf k pr) with _ | c <;>
      rcases hrest : priceComparisonAux pr ks with _ | cs' <;>
        simp only [priceComparisonAux, hc, hrest, Option.some.injEq] at h <;>
          first
          | exact Option.noConfusion h
          | subst h
    rcases List.mem_cons.mp ho with rfl | ho
    · exact ⟨k, List.mem_cons_self _ _, hc⟩
    · obtain ⟨k', hk', hck'⟩ := ih hrest ho
      exact ⟨k', List.mem_cons_of_mem _ hk', hck'⟩

theorem minPriceOf_le {g : List PricedRow} {r : PricedRow} (hr : r ∈ g) :
    minPriceOf g ≤ r.price := by
  cases g with
  | nil => simp at hr
  | cons x xs =>
    have h : foldMin ((x :: xs).map PricedRow.price) =
        some ((xs.map PricedRow.price).foldl min x.price) := rfl
    have := foldMin_le h r.price (List.mem_map_of_mem PricedRow.price hr)
    simpa [minPriceOf, h] using this

theorem le_maxPriceOf {g : List PricedRow} {r : PricedRow} (hr : r ∈ g) :
    r.price ≤ maxPriceOf g := by
  cases g with
  | nil => simp at hr
  | cons x xs =>
    have h : foldMax ((x :: xs).map PricedRow.price) =
        some ((xs.map PricedRow.price).foldl max x.price) := rfl
    have := foldMax_ge h r.price (List.mem_map_of_mem PricedRow.price hr)
    simpa [maxPriceOf, h] using this

theorem mem_groupOf {k : String × Option String} {pr : List PricedRow}
    {r : PricedRow} :
    r ∈ groupOf k pr ↔ r ∈ pr ∧ r.product_id = k.1 ∧ r.title = k.2 := by
  simp only [groupOf, List.mem_filter, decide_eq_true_eq]
  constructor
  · rintro ⟨hr, he⟩
    exact ⟨hr, by rw [← he]; exact ⟨rfl, rfl⟩⟩
  · rintro ⟨hr, h1, h2⟩
    refine ⟨hr, ?_⟩
    simp [compKey, h1, h2]

/-- C6 (amended): `cheapest_retailer` (resp. `expensive_retailer`) is
the site of some contributing row whose price attains `min_price`
(resp. `max_price`), and `min_price`/`max_price` bound every
contributing row; which tied retailer is reported is not the
lexicographically-first one. -/
theorem arbitrage_extreme_retailers (minMargin minDiff : ℚ)
    (rows : List ProductRow) (out : List CompRow) (o : CompRow)
    (h : arbitrage_opportunities minMargin minDiff rows = some out)
    (ho : o ∈ out) :
    (∃ r ∈ pricedRows rows, r.product_id = o.product_id ∧ r.title = o.title ∧
        r.site = o.cheapest_retailer ∧ r.price = o.min_price) ∧
      (∃ r ∈ pricedRows rows, r.product_id = o.product_id ∧ r.title = o.title ∧
        r.site = o.expensive_retailer ∧ r.price = o.max_price) ∧
      ∀ r ∈ pricedRows rows, r.product_id = o.product_id → r.title = o.title →
        o.min_price ≤ r.price ∧ r.price ≤ o.max_price := by
  obtain ⟨cs, hcs, rfl⟩ := arbitrage_eq_some h
  have hocs : o ∈ cs :=
    (List.mem_filter.mp ((List.mem_insertionSort marginGe).mp ho)).1
  obtain ⟨k, _, hk⟩ := priceComparisonAux_mem hcs hocs
  obtain ⟨hpid, htitle, hmin, hmax, _, ⟨rc, hrc, hrcs, hrcp⟩,
    ⟨re, hre, hres, hrep⟩, _, _⟩ := compRowOf_eq_some hk
  refine ⟨⟨rc, (mem_groupOf.mp hrc).1, ?_, ?_, hrcs, by rw [hrcp, hmin]⟩,
    ⟨re, (mem_groupOf.mp hre).1, ?_, ?_, hres, by rw [hrep, hmax]⟩, ?_⟩
  · rw [(mem_groupOf.mp hrc).2.1, hpid]
  · rw [(mem_groupOf.mp hrc).2.2, htitle]
  · rw [(mem_groupOf.mp hre).2.1, hpid]
  · rw [(mem_groupOf.mp hre).2.2, htitle]
  · intro r hr h1 h2
    have hrg : r ∈ groupOf k (pricedRows rows) :=
      mem_groupOf.mpr ⟨hr, by rw [h1, hpid], by rw [h2, htitle]⟩
    exact ⟨by rw [hmin]; exact minPriceOf_le hrg,
      by rw [hmax]; exact le_maxPriceOf hrg⟩

/-- Concrete input for C6: sites `zeta` and `alpha` tie at the minimum
price 5; `zeta` appears first in input order. -/
def c6rows : List ProductRow :=
  [⟨"p", "zeta", some "T", some 5, some "USD", none, 100⟩,
   ⟨"p", "alpha", some "T", some 5, some "USD", none, 100⟩,
   ⟨"p", "mid", some "T", some 10, some "USD", none, 100⟩]

/-- The comparison row of `p` on `c6rows`. -/
def c6row : CompRow := ⟨"p", some "T", 5, 10, 5, 100, 3, "zeta", "mid"⟩

/-- C6 counterexample: on `c6rows` the view reports `zeta` as
`cheapest_retailer` although `alpha` also offers the minimum price 5 and
sorts lexicographically before `zeta`. -/
theorem c6_counterexample :
    arbitrage_view c6rows = some [c6row] ∧
      c6row.cheapest_retailer = "zeta" ∧
      (⟨"p", some "T", "alpha", 5⟩ : PricedRow) ∈ pricedRows c6rows ∧
      c6row.min_price = 5 ∧ "alpha".data < "zeta".data := by
  refine ⟨by decide, rfl, by decide, rfl, ?_⟩
  decide

/-- Witness for the amended C6 on the same input. -/
theorem arbitrage_extreme_retailers_witness :
    arbitrage_view c6rows = some [c6row] ∧ c6row ∈ [c6row] ∧
      ((∃ r ∈ pricedRows c6rows, r.product_id = c6row.product_id ∧
          r.title = c6row.title ∧ r.site = c6row.cheapest_retailer ∧
          r.price = c6row.min_price) ∧
        (∃ r ∈ pricedRows c6rows, r.product_id = c6row.product_id ∧
          r.title = c6row.title ∧ r.site = c6row.expensive_retailer ∧
          r.price = c6row.max_price) ∧
        ∀ r ∈ pricedRows c6rows, r.product_id = c6row.product_id →
          r.title = c6row.title →
          c6row.min_price ≤ r.price ∧ r.price ≤ c6row.max_price) :=
  ⟨by decide, by decide,
   arbitrage_extreme_retailers 5 1 c6rows [c6row] c6row (by decide) (by decide)⟩

/-! ### Threshold monotonicity (C7) -/

/-- C7: for a fixed input and fixed `min_price_diff`, raising
`min_margin_pct` never increases the number of returned opportunities. -/
theorem arbitrage_count_antitone (m1 m2 minDiff : ℚ)
    (rows : List ProductRow) (o1 o2 : List CompRow) (hm : m1 ≤ m2)
    (h1 : arbitrage_opportunities m1 minDiff rows = some o1)
    (h2 : arbitrage_opportunities m2 minDiff rows = some o2) :
    o2.length ≤ o1.length := by
  obtain ⟨cs1, hcs1, rfl⟩ := arbitrage_eq_some h1
  obtain ⟨cs2, hcs2, rfl⟩ := arbitrage_eq_some h2
  rw [hcs1] at hcs2
  cases Option.some.injEq _ _ ▸ hcs2.symm
  rw [(List.perm_insertionSort marginGe _).length_eq,
    (List.perm_insertionSort marginGe _).length_eq]
  refine List.Sublist.length_le (List.monotone_filter_right _ ?_)
  intro c hc
  have hc' := of_decide_eq_true hc
  exact decide_eq_true ⟨le_trans hm hc'.1, hc'.2⟩

/-- Concrete input for the C7 witness: margins 100% (`x`) and 25% (`y`). -/
def c7rows : List ProductRow :=
  [⟨"x", "amazon", some "X", some 5, some "USD", none, 100⟩,
   ⟨"x", "walmart", some "X", some 10, some "USD", none, 100⟩,
   ⟨"y", "amazon", some "Y", some 100, some "USD", none, 100⟩,
   ⟨"y", "walmart", some "Y", some 125, some "USD", none, 100⟩]

/-- The comparison row of `x` on `c7rows`. -/
def c7rowX : CompRow := ⟨"x", some "X", 5, 10, 5, 100, 2, "amazon", "walmart"⟩

/-- The comparison row of `y` on `c7rows`. -/
def c7rowY : CompRow := ⟨"y", some "Y", 100, 125, 25, 25, 2, "amazon", "walmart"⟩

/-- Witness for C7: thresholds 10 and 50 return two resp. one result. -/
theorem arbitrage_count_antitone_witness :
    (10 : ℚ) ≤ 50 ∧
      arbitrage_opportunities 10 1 c7rows = some [c7rowX, c7rowY] ∧
      arbitrage_opportunities 50 1 c7rows = some [c7rowX] ∧
      ([c7rowX] : List CompRow).length ≤
        ([c7rowX, c7rowY] : List CompRow).length :=
  ⟨by decide, by decide, by decide,
   arbitrage_count_antitone 10 50 1 c7rows [c7rowX, c7rowY] [c7rowX]
     (by decide) (by decide) (by decide)⟩

/-! ### Single-retailer products (C8) -/

/-- C8 (amended): under the latest-mapping key invariant (at most one
row per `(product_id, site)`), a product `p` whose priced latest rows
span fewer than two distinct retailers yields no opportunity, provided
at least one of the two non-negative thresholds is strictly positive.
(At thresholds both 0 the view keeps the degenerate zero-spread row.) -/
theorem arbitrage_single_retailer_excluded (minMargin minDiff : ℚ)
    (p : String) (rows : List ProductRow) (out : List CompRow)
    (hpos : 0 < minMargin ∨ 0 < minDiff)
    (hkeys : (pricedRows rows).Pairwise
      (fun r1 r2 => ¬(r1.product_id = r2.product_id ∧ r1.site = r2.site)))
    (hsites : ((((pricedRows rows).filter
      (fun r => r.product_id = p)).map PricedRow.site).dedup).length < 2)
    (hout : arbitrage_opportunities minMargin minDiff rows = some out) :
    ∀ o ∈ out, o.product_id ≠ p := by
  obtain ⟨cs, hcs, rfl⟩ := arbitrage_eq_some hout
  intro o ho heq
  have hfil := List.mem_filter.mp ((List.mem_insertionSort marginGe).mp ho)
  have hpass := of_decide_eq_true hfil.2
  have hcs' : priceComparisonAux (pricedRows rows)
      (((pricedRows rows).map compKey).dedup) = some cs := hcs
  obtain ⟨k, _, hk⟩ := priceComparisonAux_mem hcs' hfil.1
  obtain ⟨hpid, _, _, _, hdiff, ⟨rc, hrc, _, _⟩, _, hne0, hmargin⟩ :=
    compRowOf_eq_some hk
  -- the group is contained in the rows of product p
  have hsub : List.Sublist (groupOf k (pricedRows rows))
      ((pricedRows rows).filter (fun r => r.product_id = p)) := by
    refine List.monotone_filter_right _ ?_
    intro a ha
    have ha' : compKey a = k := of_decide_eq_true ha
    have hak : a.product_id = k.1 := by rw [← ha']; rfl
    refine decide_eq_true ?_
    rw [hak, ← hpid]
    exact heq
  -- the rows of product p are pairwise site-distinct, so fewer than two
  -- distinct sites means at most one row
  set L := (pricedRows rows).filter (fun r => r.product_id = p) with hL
  have hLpw : L.Pairwise
      (fun r1 r2 => ¬(r1.product_id = r2.product_id ∧ r1.site = r2.site)) :=
    hkeys.sublist (List.filter_sublist _)
  have hLpid : ∀ r ∈ L, r.product_id = p := by
    intro r hr
    exact of_decide_eq_true (List.mem_filter.mp hr).2
  have hpw2 : L.Pairwise (fun r1 r2 => r1.site ≠ r2.site) := by
    refine hLpw.imp_of_mem ?_
    intro a b ha hb hnot hsite
    exact hnot ⟨(hLpid a ha).trans (hLpid b hb).symm, hsite⟩
  have hLsites : (L.map PricedRow.site).Nodup :=
    hpw2.map PricedRow.site (fun _ _ h => h)
  have hLlen : L.length ≤ 1 := by
    have h2 := hsites
    rw [List.dedup_eq_self.mpr hLsites, List.length_map] at h2
    omega
  have hglen : (groupOf k (pricedRows rows)).length ≤ 1 :=
    le_trans (List.Sublist.length_le hsub) hLlen
  -- so the group is the singleton [rc], making spread and margin zero
  obtain ⟨r, hg⟩ : ∃ r, groupOf k (pricedRows rows) = [r] := by
    cases hgc : groupOf k (pricedRows rows) with
    | nil => rw [hgc] at hrc; simp at hrc
    | cons r rs =>
      rw [hgc] at hglen
      simp only [List.length_cons] at hglen
      have hrs : rs = [] := List.length_eq_zero.mp (by omega)
      exact ⟨r, by rw [hrs]⟩
  have hminr : minPriceOf [r] = r.price := rfl
  have hmaxr : maxPriceOf [r] = r.price := rfl
  have hdiff0 : o.price_diff = 0 := by
    rw [hdiff, hg, hminr, hmaxr, sub_self]
  have hmargin0 : o.profit_margin_pct = 0 := by
    rw [hmargin, hg, hminr, hmaxr, sub_self, zero_div, zero_mul]
  rcases hpos with hm | hd
  · exact absurd (lt_of_lt_of_le hm (hmargin0 ▸ hpass.1)) (lt_irrefl 0)
  · exact absurd (lt_of_lt_of_le hd (hdiff0 ▸ hpass.2)) (lt_irrefl 0)

/-- Concrete input for the C8 counterexample: a single-retailer product. -/
def c8rows : List ProductRow :=
  [⟨"p", "amazon", some "T", some 10, some "USD", none, 100⟩]

/-- The degenerate comparison row of `p` on `c8rows`. -/
def c8row : CompRow := ⟨"p", some "T", 10, 10, 0, 0, 1, "amazon", "amazon"⟩

/-- C8 counterexample: at the non-negative thresholds (0, 0) a product
with a single retailer's price IS returned (zero spread, zero margin
pass `>= 0`), contradicting the claim's quantification over all
non-negative threshold pairs. -/
theorem c8_counterexample :
    (0 : ℚ) ≤ 0 ∧
      arbitrage_opportunities 0 0 c8rows = some [c8row] ∧
      ((((pricedRows c8rows).filter
        (fun r => r.product_id = "p")).map PricedRow.site).dedup).length = 1 ∧
      c8row.product_id = "p" :=
  ⟨by decide, by decide, by decide, rfl⟩

/-- Concrete input for the C8 witness: a single-retailer product at the
default thresholds. -/
def c8wrows : List ProductRow :=
  [⟨"q", "walmart", some "S", some 7, some "USD", none, 100⟩]

/-- Witness for the amended C8 at the default thresholds (5, 1). -/
theorem arbitrage_single_retailer_excluded_witness :
    ((0 : ℚ) < 5 ∨ (0 : ℚ) < 1) ∧
      (pricedRows c8wrows).Pairwise
        (fun r1 r2 => ¬(r1.product_id = r2.product_id ∧ r1.site = r2.site)) ∧
      ((((pricedRows c8wrows).filter
        (fun r => r.product_id = "q")).map PricedRow.site).dedup).length < 2 ∧
      arbitrage_opportunities 5 1 c8wrows = some [] ∧
      ∀ o ∈ ([] : List CompRow), o.product_id ≠ "q" :=
  ⟨Or.inl (by decide), by decide, by decide, by decide,
   arbitrage_single_retailer_excluded 5 1 "q" c8wrows []
     (Or.inl (by decide)) (by decide) (by decide) (by decide)⟩

/-! ### The `price_history_aggregated` view

```sql
SELECT product_id, DATE(scraped_at) as date, site,
       AVG(price) as avg_price, MIN(price) as min_price,
       MAX(price) as max_price, MAX(currency) as currency,
       COUNT(*) as data_points
FROM products
WHERE price IS NOT NULL
  AND scraped_at >= TIMESTAMP_SUB(CURRENT_TIMESTAMP(), INTERVAL 90 DAY)
GROUP BY product_id, DATE(scraped_at), site
```

`MAX` over the `STRING` column `currency` is the lexicographically
(code-point-wise) greatest non-null value, embedded via the order on
`List Char`.
-/

/-- The 90-day history window, in seconds. -/
def wHistory : Int := 90 * 86400

/-- `DATE(scraped_at)`: the UTC day index of a timestamp. -/
def dayOf (t : Int) : Int := t / 86400

/-- The history view's `WHERE` filter. -/
def inHistWindow (now : Int) (r : ProductRow) : Bool :=
  decide (r.price ≠ none ∧ now - wHistory ≤ r.scraped_at)

/-- The `GROUP BY product_id, DATE(scraped_at), site` key. -/
def histKey (r : ProductRow) : String × Int × String :=
  (r.product_id, dayOf r.scraped_at, r.site)

/-- `MAX(currency)` over a group: the code-point-wise greatest non-null
currency string, `NULL` when every row's currency is null. -/
def maxCurrency (g : List ProductRow) : Option String :=
  (foldMax ((g.filterMap ProductRow.currency).map String.data)).map
    List.asString

/-- One row of `price_history_aggregated`. -/
structure HistRow where
  product_id : String
  date : Int
  site : String
  avg_price : ℚ
  min_price : ℚ
  max_price : ℚ
  currency : Option String
  data_points : Nat
  deriving Repr, DecidableEq

/-- The aggregates of one `(product_id, date, site)` group.  Every group
row has a non-null price (the `WHERE` filter), so the price list is
nonempty and the `getD 0` defaults are never exercised. -/
def histRowOf (hr : List ProductRow) (k : String × Int × String) : HistRow :=
  let g := hr.filter fun r => histKey r = k
  let prices := g.filterMap ProductRow.price
  ⟨k.1, k.2.1, k.2.2, prices.sum / (prices.length : ℚ),
    (foldMin prices).getD 0, (foldMax prices).getD 0, maxCurrency g,
    g.length⟩

/-- The `price_history_aggregated` view, groups in first-occurrence
order. -/
def price_history_aggregated (now : Int) (rows : List ProductRow) :
    List HistRow :=
  let hr := rows.filter (inHistWindow now)
  ((hr.map histKey).dedup).map (histRowOf hr)

/-- C9 (amended): a non-null `currency` of a history point is an
observed currency of its `(product_id, date, site)` group and is the
code-point-wise greatest one — not the most recently scraped one. -/
theorem history_currency_is_lex_max (now : Int) (rows : List ProductRow)
    (h : HistRow) (hh : h ∈ price_history_aggregated now rows)
    (c : String) (hc : h.currency = some c) :
    (∃ r ∈ rows, r.price ≠ none ∧ now - wHistory ≤ r.scraped_at ∧
      r.product_id = h.product_id ∧ dayOf r.scraped_at = h.date ∧
      r.site = h.site ∧ r.currency = some c) ∧
      ∀ r ∈ rows, r.price ≠ none → now - wHistory ≤ r.scraped_at →
        r.product_id = h.product_id → dayOf r.scraped_at = h.date →
        r.site = h.site → ∀ c', r.currency = some c' → c'.data ≤ c.data := by
  obtain ⟨k, hkmem, rfl⟩ := List.mem_map.mp hh
  have hc' : maxCurrency ((rows.filter (inHistWindow now)).filter
      fun r => histKey r = k) = some c := hc
  simp only [maxCurrency, Option.map_eq_some'] at hc'
  obtain ⟨d, hd, hdc⟩ := hc'
  set g := (rows.filter (inHistWindow now)).filter fun r => histKey r = k
    with hg
  have hcdata : c.data = d := by rw [← hdc]; rfl
  have hmemrow : ∀ {r : ProductRow}, r ∈ g →
      r ∈ rows ∧ (r.price ≠ none ∧ now - wHistory ≤ r.scraped_at) ∧
        histKey r = k := by
    intro r hr
    have h1 := List.mem_filter.mp hr
    have h2 := List.mem_filter.mp h1.1
    exact ⟨h2.1, of_decide_eq_true h2.2, of_decide_eq_true h1.2⟩
  have hrowmem : ∀ {r : ProductRow}, r ∈ rows → r.price ≠ none →
      now - wHistory ≤ r.scraped_at → histKey r = k → r ∈ g := by
    intro r hr hp hw hk
    exact List.mem_filter.mpr
      ⟨List.mem_filter.mpr ⟨hr, decide_eq_true ⟨hp, hw⟩⟩, decide_eq_true hk⟩
  constructor
  · -- the reported currency is observed in the group
    have hdmem := foldMax_mem hd
    obtain ⟨s, hs, hsd⟩ := List.mem_map.mp hdmem
    obtain ⟨r, hrg, hrc⟩ := List.mem_filterMap.mp hs
    obtain ⟨hrrows, ⟨hrp, hrw⟩, hrk⟩ := hmemrow hrg
    have hsc : s = c := by
      rw [← hdc, ← hsd]
      rfl
    refine ⟨r, hrrows, hrp, hrw, ?_, ?_, ?_, by rw [hrc, hsc]⟩
    · rw [← hrk]; rfl
    · rw [← hrk]; rfl
    · rw [← hrk]; rfl
  · -- and it dominates every observed currency of the group
    intro r hr hp hw hpid hday hsite c' hc'
    have hrk : histKey r = k := by
      have e1 : (histKey r).1 = k.1 := hpid
      have e2 : (histKey r).2.1 = k.2.1 := hday
      have e3 : (histKey r).2.2 = k.2.2 := hsite
      exact Prod.ext e1 (Prod.ext e2 e3)
    have hrg := hrowmem hr hp hw hrk
    have hcmem : c' ∈ g.filterMap ProductRow.currency :=
      List.mem_filterMap.mpr ⟨r, hrg, hc'⟩
    have := foldMax_ge hd c'.data
      (List.mem_map_of_mem String.data hcmem)
    rw [hcdata]
    exact this

/-- The early observation for the C9 counterexample (currency USD). -/
def c9rowEarly : ProductRow := ⟨"p", "amazon", none, some 5, some "USD", none, 0⟩

/-- The later observation of the same day (currency CAD). -/
def c9rowLate : ProductRow := ⟨"p", "amazon", none, some 6, some "CAD", none, 100⟩

/-- Concrete input for C9: two same-day observations whose currencies
differ. -/
def c9rows : List ProductRow := [c9rowEarly, c9rowLate]

/-- C9 counterexample: the day's last-scraped currency is `CAD`, but the
view reports `USD` (`MAX(currency)` is a lexicographic maximum, not the
most recent value). -/
theorem c9_counterexample :
    (price_history_aggregated 0 c9rows).map HistRow.currency = [some "USD"] ∧
      c9rowEarly.scraped_at < c9rowLate.scraped_at ∧
      dayOf c9rowEarly.scraped_at = dayOf c9rowLate.scraped_at ∧
      c9rowLate.currency = some "CAD" ∧
      (some "CAD" : Option String) ≠ some "USD" :=
  ⟨by decide, by decide, by decide, rfl, by decide⟩

/-- The history point produced on `c9rows`. -/
def c9hist : HistRow := ⟨"p", 0, "amazon", 11 / 2, 5, 6, some "USD", 2⟩

/-- Witness for the amended C9 on the same input. -/
theorem history_currency_is_lex_max_witness :
    c9hist ∈ price_history_aggregated 0 c9rows ∧
      c9hist.currency = some "USD" ∧
      ((∃ r ∈ c9rows, r.price ≠ none ∧ 0 - wHistory ≤ r.scraped_at ∧
          r.product_id = c9hist.product_id ∧
          dayOf r.scraped_at = c9hist.date ∧ r.site = c9hist.site ∧
          r.currency = some "USD") ∧
        ∀ r ∈ c9rows, r.price ≠ none → 0 - wHistory ≤ r.scraped_at →
          r.product_id = c9hist.product_id → dayOf r.scraped_at = c9hist.date →
          r.site = c9hist.site → ∀ c', r.currency = some c' →
          c'.data ≤ "USD".data) :=
  ⟨by decide, rfl,
   history_currency_is_lex_max 0 c9rows c9hist (by decide) "USD" rfl⟩

/-! ### The `product_brands` view

```sql
SELECT brand, COUNT(DISTINCT product_id) as product_count,
       COUNT(DISTINCT site) as retailer_count,
       AVG(price) as avg_price, MIN(price) as min_price,
       MAX(price) as max_price
FROM latest_prices
WHERE brand IS NOT NULL AND brand != ''
GROUP BY brand
ORDER BY product_count DESC
```
-/

/-- The `WHERE brand IS NOT NULL AND brand != ''` filter. -/
def hasBrand (r : ProductRow) : Bool :=
  decide (r.brand ≠ none ∧ r.brand ≠ some "")

/-- One row of `product_brands`.  The price aggregates ignore NULL
prices and are themselves NULL when no row of the brand has a price. -/
structure BrandRow where
  brand : String
  product_count : Nat
  retailer_count : Nat
  avg_price : Option ℚ
  min_price : Option ℚ
  max_price : Option ℚ
  deriving Repr, DecidableEq

/-- The aggregates of one brand's group. -/
def brandRowOf (br : List ProductRow) (b : String) : BrandRow :=
  let g := br.filter fun r => r.brand = some b
  let prices := g.filterMap ProductRow.price
  ⟨b, ((g.map ProductRow.product_id).dedup).length,
    ((g.map ProductRow.site).dedup).length,
    if prices.isEmpty then none
    else some (prices.sum / (prices.length : ℚ)),
    foldMin prices, foldMax prices⟩

/-- `ORDER BY product_count DESC` as a relation. -/
def pcGe (a b : BrandRow) : Prop :=
  b.product_count ≤ a.product_count

instance : DecidableRel pcGe :=
  fun _ _ => inferInstanceAs (Decidable (_ ≤ _))

instance : IsTotal BrandRow pcGe :=
  ⟨fun a b => Nat.le_total b.product_count a.product_count⟩

instance : IsTrans BrandRow pcGe :=
  ⟨fun _ _ _ hab hbc => le_trans hbc hab⟩

/-- The `product_brands` view, brands in first-occurrence order before
the final sort. -/
def product_brands (latest : List ProductRow) : List BrandRow :=
  let br := latest.filter hasBrand
  List.insertionSort pcGe
    (((br.filterMap ProductRow.brand).dedup).map (brandRowOf br))

/-- C10: every emitted brand is non-empty (null/empty brands are
filtered out), and its `product_count`/`retailer_count` are the numbers
of distinct product ids resp. sites among that brand's rows. -/
theorem brand_stats_distinct_counts (latest : List ProductRow)
    (b : BrandRow) (h : b ∈ product_brands latest) :
    b.brand ≠ "" ∧
      b.product_count = (((latest.filter hasBrand).filter
        (fun r => r.brand = some b.brand)).map
          ProductRow.product_id).toFinset.card ∧
      b.retailer_count = (((latest.filter hasBrand).filter
        (fun r => r.brand = some b.brand)).map ProductRow.site).toFinset.card := by
  have h' := (List.mem_insertionSort pcGe).mp h
  obtain ⟨bb, hbb, rfl⟩ := List.mem_map.mp h'
  refine ⟨?_, (List.card_toFinset _).symm, (List.card_toFinset _).symm⟩
  have hbb' := List.mem_dedup.mp hbb
  obtain ⟨r, hr, hrb⟩ := List.mem_filterMap.mp hbb'
  have hhas := of_decide_eq_true (List.mem_filter.mp hr).2
  intro hempty
  have hbbe : bb = "" := hempty
  exact hhas.2 (hrb.trans (congrArg Option.some hbbe))

/-- The spec's example brand scenario: three `Acme` latest rows across
two products and two sites. -/
def acmeRows : List ProductRow :=
  [⟨"p1", "amazon", some "A", some 10, some "USD", some "Acme", 100⟩,
   ⟨"p1", "walmart", some "A", some 20, some "USD", some "Acme", 100⟩,
   ⟨"p2", "amazon", some "B", some 30, some "USD", some "Acme", 100⟩]

/-- The brand row produced on `acmeRows`. -/
def acmeStat : BrandRow := ⟨"Acme", 2, 2, some 20, some 10, some 30⟩

/-- Witness for C10 on the spec's example: `product_count = 2`,
`retailer_count = 2`. -/
theorem brand_stats_distinct_counts_witness :
    acmeStat ∈ product_brands acmeRows ∧
      acmeStat.product_count = 2 ∧ acmeStat.retailer_count = 2 ∧
      (acmeStat.brand ≠ "" ∧
        acmeStat.product_count = (((acmeRows.filter hasBrand).filter
          (fun r => r.brand = some acmeStat.brand)).map
            ProductRow.product_id).toFinset.card ∧
        acmeStat.retailer_count = (((acmeRows.filter hasBrand).filter
          (fun r => r.brand = some acmeStat.brand)).map
            ProductRow.site).toFinset.card) :=
  ⟨by decide, rfl, rfl,
   brand_stats_distinct_counts acmeRows acmeStat (by decide)⟩
